import Mathlib

/-!
agent-os `install.js`: the installation bootstrapper.

A shallow embedding of `src/install.js`, the thirteen-line Node.js script that
locates `scripts/base-install.sh` next to itself, runs it through `execSync`
and maps the outcome to the exit code of the process.

The script is embedded together with the parts of its run-time it relies on:

* `path.join` / `path.normalize` (Node's POSIX implementation, `lib/path.js`);
* `console.log` / `console.error` for string arguments;
* `execSync` (`lib/child_process.js`): the launch request it builds and the
  error it throws;
* the host on the other side of `execSync`: `/bin/sh -c <command>` splitting
  the command line into words and `bash` running a script file.

The host is POSIX: `/` separates path segments and the shell is `/bin/sh`.
Everything is executable; strings are Lean `String`s, the scanning loop of
`normalizeString` works on their character lists.
-/

namespace AgentOS

/-! ## `path` (POSIX) -/

/-- Loop state of `normalizeString` in Node's `lib/path.js`.  The source keeps
the indices `lastSlash` and `i` into the path; the characters between them,
`path.slice(lastSlash + 1, i)`, are kept here as `seg`, so that
`lastSlash === i - 1` reads `seg = []`. -/
structure NormState where
  res : List Char
  lastSegmentLength : Nat
  seg : List Char
  dots : Int
  deriving DecidableEq, Repr

/-- Initial state of the loop: `res = ''`, `lastSegmentLength = 0`,
`lastSlash = -1`, `dots = 0`. -/
def NormState.init : NormState :=
  { res := [], lastSegmentLength := 0, seg := [], dots := 0 }

/-- Index of the last occurrence of `sep`, `none` for the source's `-1`
(`StringPrototypeLastIndexOf`). -/
def lastIndexOf (sep : Char) : List Char → Option Nat
  | [] => none
  | c :: cs =>
    match lastIndexOf sep cs with
    | some k => some (k + 1)
    | none => if c = sep then some 0 else none

/-- The tail of the `dots === 2` branch that is reached when no segment was
removed: `..` is kept only when the path may climb above its root. -/
def keepDotDot (allowAboveRoot : Bool) (st : NormState) : NormState :=
  if allowAboveRoot then
    { res := if st.res.length > 0 then st.res ++ "/..".data else "..".data
      lastSegmentLength := 2, seg := [], dots := 0 }
  else
    { st with seg := [], dots := 0 }

/-- Body of the loop of `normalizeString` when the current character is a path
separator. -/
def onSeparator (allowAboveRoot : Bool) (st : NormState) : NormState :=
  if st.seg = [] ∨ st.dots = 1 then
    { st with seg := [], dots := 0 }
  else if st.dots = 2 then
    if st.res.length < 2 ∨ st.lastSegmentLength ≠ 2 ∨
        st.res.reverse.get? 0 ≠ some '.' ∨ st.res.reverse.get? 1 ≠ some '.' then
      if st.res.length > 2 then
        match lastIndexOf '/' st.res with
        | none => { res := [], lastSegmentLength := 0, seg := [], dots := 0 }
        | some k =>
          let r := st.res.take k
          { res := r
            lastSegmentLength :=
              match lastIndexOf '/' r with
              | none => r.length
              | some j => r.length - 1 - j
            seg := [], dots := 0 }
      else if st.res.length ≠ 0 then
        { res := [], lastSegmentLength := 0, seg := [], dots := 0 }
      else keepDotDot allowAboveRoot st
    else keepDotDot allowAboveRoot st
  else
    { res := if st.res.length > 0 then st.res ++ '/' :: st.seg else st.seg
      lastSegmentLength := st.seg.length, seg := [], dots := 0 }

/-- One iteration of the loop of `normalizeString` on the character `c`. -/
def normStep (allowAboveRoot : Bool) (st : NormState) (c : Char) : NormState :=
  if c = '/' then onSeparator allowAboveRoot st
  else if c = '.' ∧ st.dots ≠ -1 then
    { st with seg := st.seg ++ [c], dots := st.dots + 1 }
  else
    { st with seg := st.seg ++ [c], dots := -1 }

/-- Node's `normalizeString(path, allowAboveRoot, '/', isPosixPathSeparator)`:
the loop runs over the characters of the path and then once more on a virtual
separator, unless the last character read was a separator already. -/
def normalizeString (path : List Char) (allowAboveRoot : Bool) : List Char :=
  let st := path.foldl (normStep allowAboveRoot) NormState.init
  if path.getLast? = some '/' then st.res
  else (onSeparator allowAboveRoot st).res

/-- Node's `path.posix.normalize`. -/
def normalize (path : String) : String :=
  if path.length = 0 then "."
  else
    let isAbsolute := path.data.head? = some '/'
    let trailingSeparator := path.data.getLast? = some '/'
    let p := normalizeString path.data (!decide isAbsolute)
    if p.length = 0 then
      if isAbsolute then "/" else if trailingSeparator then "./" else "."
    else
      let p := if trailingSeparator then p ++ ['/'] else p
      if isAbsolute then String.mk ('/' :: p) else String.mk p

/-- Node's `path.posix.join`: the non-empty arguments are glued with `/` and
the result is normalised; no non-empty argument gives `.`. -/
def join (args : List String) : String :=
  match args.foldl (fun (joined : Option String) arg =>
      if arg.length > 0 then
        match joined with
        | none => some arg
        | some j => some (j ++ "/" ++ arg)
      else joined) none with
  | none => "."
  | some joined => normalize joined

/-- Node's `path.posix.isAbsolute`: the path starts with a separator. -/
def isAbsolute (path : String) : Bool :=
  path.data.head? = some '/'

/-! ## Paths in normal form -/

/-- Puts a character in front of the first segment. -/
def consHead (c : Char) : List (List Char) → List (List Char)
  | [] => [[c]]
  | seg :: segs => (c :: seg) :: segs

/-- The segments of a path: the pieces between its separators. -/
def splitSlash : List Char → List (List Char)
  | [] => [[]]
  | c :: cs => if c = '/' then [] :: splitSlash cs else consHead c (splitSlash cs)

/-- A segment that names a directory entry: not empty, not `.`, not `..`. -/
def properName (seg : List Char) : Bool :=
  decide (seg ≠ [] ∧ seg ≠ ['.'] ∧ seg ≠ ['.', '.'])

/-- An absolute directory path in normal form other than the root, the form
Node gives `__dirname`: a separator followed by proper names with one separator
between them. -/
def isNormalDir (D : String) : Bool :=
  D.data.head? = some '/' && (splitSlash D.data.tail).all properName

/-- How the loop of `normalizeString` counts the dots of a segment. -/
def dotsAfter (d : Int) (seg : List Char) : Int :=
  seg.foldl (fun d c => if c = '.' ∧ d ≠ -1 then d + 1 else -1) d

/-- What `res` becomes when kept segments are appended one after the other. -/
def glueAll (res : List Char) : List (List Char) → List Char
  | [] => res
  | seg :: segs => glueAll (if res.length > 0 then res ++ '/' :: seg else seg) segs

/-! ## `console` -/

/-- Text written by `console.log(...args)` and `console.error(...args)` for
string arguments the first of which has no `%` directive: `util.format` puts one
blank between the arguments and the console ends the text with a newline. -/
def consoleLine (args : List String) : String :=
  " ".intercalate args ++ "\n"

/-! ## `child_process` -/

/-- One entry of the `stdio` array of a spawn request: a fresh pipe to the
parent, nothing, or one of the parent's own descriptors. -/
inductive StdioSlot
  | pipe
  | ignore
  | fd (n : Nat)
  deriving DecidableEq, Repr

/-- Node's `stdioStringToArray`: `'inherit'` stands for the parent's
descriptors `[0, 1, 2]`; an unknown word is an invalid argument. -/
def stdioStringToArray (stdio : String) : Option (List StdioSlot) :=
  if stdio = "ignore" then some [.ignore, .ignore, .ignore]
  else if stdio = "pipe" ∨ stdio = "overlapped" then some [.pipe, .pipe, .pipe]
  else if stdio = "inherit" then some [.fd 0, .fd 1, .fd 2]
  else none

/-- The options object handed to `execSync` (the two fields the script sets). -/
structure ExecOptions where
  stdio : Option String
  cwd : Option String
  deriving DecidableEq, Repr

/-- What `spawnSync` asks the host to start. -/
structure SpawnRequest where
  file : String
  args : List String
  cwd : String
  stdio : List StdioSlot
  deriving DecidableEq, Repr

/-- The fields of the result of `spawnSync` that `execSync` reads: `error` is
the message of `ret.error` when the launch failed, `status` the exit status
(`none` for `null`, a child ended by a signal), `stderr` what the child wrote to
a piped standard error. -/
structure SpawnResult where
  error : Option String
  status : Option Nat
  signal : Option String
  stderr : Option String
  deriving DecidableEq, Repr

/-- The error object thrown by `execSync`; the script reads its `message`. -/
structure ExecError where
  message : String
  deriving DecidableEq, Repr

/-- The host on the other side of `spawnSync`: it answers a spawn request and
may change its own state (files, environment) of type `σ` while doing so. -/
abbrev Host (σ : Type) := SpawnRequest → σ → SpawnResult × σ

/-- What a run of the bootstrapper does, in program order: its own writes to a
descriptor (1 standard output, 2 standard error), the start of the child, the
return of `spawnSync` once the child is over, and the end of the process. -/
inductive Event
  | write (fd : Nat) (text : String)
  | spawn (req : SpawnRequest)
  | returned (ret : SpawnResult)
  | exit (code : Nat)
  deriving DecidableEq, Repr

/-- Node's `spawnSync` as far as `execSync` sees it: the call blocks until the
host has answered; standard error is reported only when it was a pipe. -/
def spawnSync {σ : Type} (host : Host σ) (req : SpawnRequest) (s : σ) :
    SpawnResult × σ :=
  let r := host req s
  ({ r.1 with stderr := if req.stdio.get? 2 = some .pipe then r.1.stderr else none }, r.2)

/-- Node's `checkExecSyncError`. -/
def checkExecSyncError (ret : SpawnResult) (cmd : String) : Option ExecError :=
  match ret.error with
  | some m => some ⟨m⟩
  | none =>
    if ret.status ≠ some 0 then
      let msg := "Command failed: " ++ cmd
      match ret.stderr with
      | some e => if e.length > 0 then some ⟨msg ++ "\n" ++ e⟩ else some ⟨msg⟩
      | none => some ⟨msg⟩
    else none

/-- Node's `execSync(command, options)` on a POSIX host, in a process whose
working directory is `procCwd`: the command line is handed to `/bin/sh -c`, the
child runs in `options.cwd` (the directory of the process when absent), and a
failed launch or a status other than zero is thrown. -/
def execSync {σ : Type} (host : Host σ) (procCwd : String) (command : String)
    (options : ExecOptions) (s : σ) : List Event × Except ExecError Unit × σ :=
  match stdioStringToArray (options.stdio.getD "pipe") with
  | none => ([], .error ⟨"The argument 'stdio' is invalid."⟩, s)
  | some stdio =>
    let req : SpawnRequest :=
      { file := "/bin/sh", args := ["/bin/sh", "-c", command]
        cwd := options.cwd.getD procCwd, stdio := stdio }
    let r := spawnSync host req s
    let echo : List Event :=
      match r.1.stderr with
      | some e => if options.stdio.isNone then [.write 2 e] else []
      | none => []
    let evs := [Event.spawn req, Event.returned r.1] ++ echo
    match checkExecSyncError r.1 command with
    | some err => (evs, .error err, r.2)
    | none => (evs, .ok (), r.2)

/-! ## `install.js` -/

/-- The ambient values of a run: `__dirname`, the directory of `install.js`,
and the working directory the caller started the process in. -/
structure Env where
  dirname : String
  cwd : String
  deriving DecidableEq, Repr

/-- Line 6: `path.join(__dirname, 'scripts', 'base-install.sh')`. -/
def scriptPath (env : Env) : String :=
  join [env.dirname, "scripts", "base-install.sh"]

/-- Line 10, first argument: the template literal with the script path put in
as it is. -/
def command (env : Env) : String :=
  "bash " ++ scriptPath env

/-- Line 10, second argument: `{ stdio: 'inherit', cwd: __dirname }`. -/
def options (env : Env) : ExecOptions :=
  { stdio := some "inherit", cwd := some env.dirname }

/-- Lines 8 to 14, the body of `install.js`: the events of one run and the
state the host is left in.  Falling off the end of the script ends the process
with code 0, `process.exit(1)` with code 1. -/
def install {σ : Type} (host : Host σ) (env : Env) (s : σ) : List Event × σ :=
  let log := [Event.write 1 (consoleLine ["Running Agent OS installation...\n"])]
  match execSync host env.cwd (command env) (options env) s with
  | (evs, .ok _, s') => (log ++ evs ++ [Event.exit 0], s')
  | (evs, .error error, s') =>
    (log ++ evs ++
      [Event.write 2 (consoleLine ["Installation failed:", error.message]), Event.exit 1], s')

/-! ## Observations on a run -/

/-- Exit code of a run: the code of its first `exit` event. -/
def exitCode (evs : List Event) : Option Nat :=
  evs.findSome? fun e => match e with
    | .exit c => some c
    | _ => none

/-- Everything the bootstrapper itself wrote to the descriptor `fd`. -/
def written (fd : Nat) (evs : List Event) : String :=
  String.join (evs.filterMap fun e => match e with
    | .write n t => if n = fd then some t else none
    | _ => none)

/-- The spawn requests of a run. -/
def launches (evs : List Event) : List SpawnRequest :=
  evs.filterMap fun e => match e with
    | .spawn r => some r
    | _ => none

/-- Scanning loop of `linesOf`: `cur` is the line read so far. -/
def linesGo : List Char → List Char → List String
  | [], cur => if cur = [] then [] else [String.mk cur]
  | c :: cs, cur =>
    if c = '\n' then String.mk cur :: linesGo cs [] else linesGo cs (cur ++ [c])

/-- The lines of a text: the pieces ended by a newline, and what follows the
last newline when that is not empty. -/
def linesOf (text : String) : List String :=
  linesGo text.data []

/-- The spawn request `install.js` is expected to issue: the command line under
`/bin/sh -c`, run in `__dirname`, on the three descriptors of the parent. -/
def spawnRequest (env : Env) : SpawnRequest :=
  { file := "/bin/sh", args := ["/bin/sh", "-c", command env]
    cwd := env.dirname, stdio := [.fd 0, .fd 1, .fd 2] }

/-- The child was launched and left with status zero. -/
def succeeded (ret : SpawnResult) : Prop :=
  ret.error = none ∧ ret.status = some 0

instance (ret : SpawnResult) : Decidable (succeeded ret) :=
  inferInstanceAs (Decidable (_ ∧ _))

/-! ## The host: `/bin/sh -c` and `bash` -/

/-- Scanning loop of `shWords`: `cur` is the word read so far. -/
def shWordsGo : List Char → List Char → List String
  | [], cur => if cur = [] then [] else [String.mk cur]
  | c :: cs, cur =>
    if c = ' ' ∨ c = '\t' then
      if cur = [] then shWordsGo cs [] else String.mk cur :: shWordsGo cs []
    else shWordsGo cs (cur ++ [c])

/-- How `sh` cuts a command line into words, for command lines made of
ordinary characters and blanks (no quoting, no operator, no expansion): the
words are the maximal runs of characters other than space and tab. -/
def shWords (cmd : String) : List String :=
  shWordsGo cmd.data []

/-- The files of a host: which absolute paths hold a readable file, and the
exit status `bash` ends with when it interprets such a file with the given
arguments. -/
structure Files where
  isFile : String → Bool
  run : String → List String → Nat

/-- A POSIX host answering `/bin/sh -c "bash <words>"`: the first word after
`bash` is the script file, looked up from the working directory of the child
when it is relative, the other words are its arguments; a file that cannot be
found ends `bash` with status 127.  Requests of another form are outside this
model and answered as a failed launch. -/
def bashHost (fs : Files) : Host Unit := fun req s =>
  match req.args with
  | [_, "-c", cmd] =>
    match shWords cmd with
    | "bash" :: script :: args =>
      let file := if isAbsolute script then script else join [req.cwd, script]
      if fs.isFile file then
        ({ error := none, status := some (fs.run file args), signal := none, stderr := none }, s)
      else
        ({ error := none, status := some 127, signal := none, stderr := none }, s)
    | _ => ({ error := some "outside the model", status := none, signal := none, stderr := none }, s)
  | _ => ({ error := some "outside the model", status := none, signal := none, stderr := none }, s)

/-- What `spawnSync` reports to `install.js`: the answer of the host with no
captured standard error, the three streams being those of the parent. -/
def outcome {σ : Type} (host : Host σ) (env : Env) (s : σ) : SpawnResult :=
  { (host (spawnRequest env) s).1 with stderr := none }

/-! ## Stub hosts and directories -/

/-- A stub for `scripts/base-install.sh` on a host that launches it: the child
leaves with the given status whatever the request and writes nothing. -/
def stubHost (status : Nat) : Host Unit := fun _ s =>
  ({ error := none, status := some status, signal := none, stderr := none }, s)

/-- A host with a memory: every launch is counted, and the stub child leaves
with the given status whatever the count. -/
def countingHost (status : Nat) : Host Nat := fun _ n =>
  ({ error := none, status := some status, signal := none, stderr := none }, n + 1)

/-- A checkout in `/opt/agent-os`, started from the home of a user. -/
def plainEnv : Env :=
  { dirname := "/opt/agent-os", cwd := "/home/dev" }

/-- A checkout in a directory whose name has a blank in it. -/
def spacedEnv : Env :=
  { dirname := "/opt/agent os", cwd := "/home/dev" }

/-- A host where `/opt/agent` is a readable file that `bash` interprets with
status 0 and where no other file exists: `scripts/base-install.sh` is missing
from the checkout in `/opt/agent os`. -/
def strayFiles : Files :=
  { isFile := fun p => p == "/opt/agent", run := fun _ _ => 0 }

/-! ## Normalisation of paths in normal form -/

theorem splitSlash_slash (cs : List Char) : splitSlash ('/' :: cs) = [] :: splitSlash cs := by
  simp [splitSlash]

theorem splitSlash_other (c : Char) (cs : List Char) (h : c ≠ '/') :
    splitSlash (c :: cs) = consHead c (splitSlash cs) := by
  simp [splitSlash, h]

theorem splitSlash_ne_nil (l : List Char) : splitSlash l ≠ [] := by
  cases l with
  | nil => simp [splitSlash]
  | cons c cs =>
    by_cases hc : c = '/'
    · subst hc; simp [splitSlash_slash]
    · rw [splitSlash_other c cs hc]
      cases splitSlash cs <;> simp [consHead]

theorem splitSlash_no_slash (l : List Char) : ∀ seg ∈ splitSlash l, '/' ∉ seg := by
  induction l with
  | nil => simp [splitSlash]
  | cons c cs ih =>
    by_cases hc : c = '/'
    · subst hc
      rw [splitSlash_slash]
      intro seg hseg
      rcases List.mem_cons.1 hseg with h | h
      · subst h; simp
      · exact ih seg h
    · rw [splitSlash_other c cs hc]
      cases hs : splitSlash cs with
      | nil => exact absurd hs (splitSlash_ne_nil cs)
      | cons s ss =>
        rw [hs] at ih
        intro seg hseg
        simp only [consHead, List.mem_cons] at hseg
        rcases hseg with h | h
        · subst h
          have := ih s (List.mem_cons_self _ _)
          simp only [List.mem_cons, not_or]
          exact ⟨fun h => hc h.symm, this⟩
        · exact ih seg (List.mem_cons_of_mem _ h)

theorem splitSlash_append_slash (a b : List Char) :
    splitSlash (a ++ '/' :: b) = splitSlash a ++ splitSlash b := by
  induction a with
  | nil => simp [splitSlash_slash, splitSlash]
  | cons c cs ih =>
    by_cases hc : c = '/'
    · subst hc
      rw [List.cons_append, splitSlash_slash, splitSlash_slash, ih, List.cons_append]
    · rw [List.cons_append, splitSlash_other c _ hc, splitSlash_other c _ hc, ih]
      cases hs : splitSlash cs with
      | nil => exact absurd hs (splitSlash_ne_nil cs)
      | cons s ss => simp [consHead]

theorem flatMap_splitSlash (l : List Char) :
    (splitSlash l).flatMap (fun seg => seg ++ ['/']) = l ++ ['/'] := by
  induction l with
  | nil => simp [splitSlash]
  | cons c cs ih =>
    by_cases hc : c = '/'
    · subst hc
      rw [splitSlash_slash, List.flatMap_cons, ih]
      simp
    · rw [splitSlash_other c cs hc]
      cases hs : splitSlash cs with
      | nil => exact absurd hs (splitSlash_ne_nil cs)
      | cons s ss =>
        rw [hs] at ih
        simp only [consHead, List.flatMap_cons, List.cons_append] at ih ⊢
        rw [ih]

theorem flatMap_slash_splitSlash (l : List Char) :
    (splitSlash l).flatMap (fun seg => '/' :: seg) = '/' :: l := by
  induction l with
  | nil => simp [splitSlash]
  | cons c cs ih =>
    by_cases hc : c = '/'
    · subst hc
      rw [splitSlash_slash, List.flatMap_cons, ih]
      simp
    · rw [splitSlash_other c cs hc]
      cases hs : splitSlash cs with
      | nil => exact absurd hs (splitSlash_ne_nil cs)
      | cons s ss =>
        rw [hs] at ih
        simp only [consHead, List.flatMap_cons, List.cons_append, List.cons.injEq,
          true_and] at ih ⊢
        rw [ih]

theorem glueAll_of_ne_nil (segs : List (List Char)) (res : List Char) (h : res ≠ []) :
    glueAll res segs = res ++ segs.flatMap (fun seg => '/' :: seg) := by
  induction segs generalizing res with
  | nil => simp [glueAll]
  | cons s ss ih =>
    have hl : res.length > 0 := List.length_pos.2 h
    simp only [glueAll, hl, if_true]
    rw [ih _ (by simp)]
    simp

theorem glueAll_splitSlash (l : List Char) (h : (splitSlash l).all properName = true) :
    glueAll [] (splitSlash l) = l := by
  have hb := flatMap_slash_splitSlash l
  cases hs : splitSlash l with
  | nil => exact absurd hs (splitSlash_ne_nil l)
  | cons s ss =>
    rw [hs] at h hb
    have hs0 : s ≠ [] := by
      simp only [List.all_cons, Bool.and_eq_true, properName, decide_eq_true_eq] at h
      exact h.1.1
    simp only [glueAll, List.length_nil, gt_iff_lt, lt_self_iff_false, if_false]
    rw [glueAll_of_ne_nil ss s hs0]
    simp only [List.flatMap_cons, List.cons_append, List.cons.injEq, true_and] at hb
    exact hb

theorem dotsAfter_neg_one (seg : List Char) : dotsAfter (-1) seg = -1 := by
  induction seg with
  | nil => rfl
  | cons c cs ih =>
    simp only [dotsAfter, List.foldl_cons] at ih ⊢
    simpa using ih

theorem dotsAfter_cases (seg : List Char) (d : Int) (hd : 0 ≤ d) :
    dotsAfter d seg = -1 ∨ (dotsAfter d seg = d + seg.length ∧ ∀ c ∈ seg, c = '.') := by
  induction seg generalizing d with
  | nil => right; simp [dotsAfter]
  | cons c cs ih =>
    have hstep : dotsAfter d (c :: cs) =
        dotsAfter (if c = '.' ∧ d ≠ -1 then d + 1 else -1) cs := rfl
    rw [hstep]
    by_cases hc : c = '.'
    · have hd1 : d ≠ -1 := by omega
      simp only [hc, hd1, ne_eq, not_false_eq_true, and_self, if_true]
      rcases ih (d + 1) (by omega) with h | ⟨h, hall⟩
      · exact Or.inl h
      · right
        refine ⟨by rw [h]; simp only [List.length_cons]; push_cast; omega, ?_⟩
        intro x hx
        rcases List.mem_cons.1 hx with hx | hx
        · exact hx
        · exact hall x hx
    · simp only [hc, false_and, if_false]
      exact Or.inl (dotsAfter_neg_one cs)

theorem dotsAfter_properName (seg : List Char) (h : properName seg = true) :
    dotsAfter 0 seg ≠ 1 ∧ dotsAfter 0 seg ≠ 2 := by
  simp only [properName, decide_eq_true_eq] at h
  obtain ⟨-, h1, h2⟩ := h
  rcases dotsAfter_cases seg 0 (le_refl 0) with hd | ⟨hd, hall⟩
  · rw [hd]; exact ⟨by decide, by decide⟩
  · rw [hd]
    constructor
    · intro hlen
      apply h1
      match seg, hall, hlen with
      | [c], hall, _ => rw [hall c (List.mem_singleton_self c)]
      | [], _, hlen => simp at hlen
      | _ :: _ :: _, _, hlen => simp only [List.length_cons] at hlen; push_cast at hlen; omega
    · intro hlen
      apply h2
      match seg, hall, hlen with
      | [a, b], hall, _ =>
        rw [hall a (by simp), hall b (by simp)]
      | [], _, hlen => simp at hlen
      | [_], _, hlen => simp at hlen
      | _ :: _ :: _ :: _, _, hlen => simp only [List.length_cons] at hlen; push_cast at hlen; omega

theorem foldl_normStep_segment (a : Bool) (seg : List Char) (hseg : '/' ∉ seg)
    (st : NormState) :
    seg.foldl (normStep a) st =
      { st with seg := st.seg ++ seg, dots := dotsAfter st.dots seg } := by
  induction seg generalizing st with
  | nil => simp [dotsAfter]
  | cons c cs ih =>
    have hc : c ≠ '/' := fun h => hseg (h ▸ List.mem_cons_self _ _)
    have hcs : '/' ∉ cs := fun h => hseg (List.mem_cons_of_mem _ h)
    rw [List.foldl_cons, ih hcs]
    have hstep : dotsAfter st.dots (c :: cs) =
        dotsAfter (if c = '.' ∧ st.dots ≠ -1 then st.dots + 1 else -1) cs := rfl
    rw [hstep]
    simp only [normStep, hc, if_false]
    split <;> simp

theorem onSeparator_segment (a : Bool) (seg : List Char) (hseg : '/' ∉ seg)
    (hp : properName seg = true) (st : NormState) (h1 : st.seg = []) (h2 : st.dots = 0) :
    onSeparator a (seg.foldl (normStep a) st) =
      { res := if st.res.length > 0 then st.res ++ '/' :: seg else seg
        lastSegmentLength := seg.length, seg := [], dots := 0 } := by
  rw [foldl_normStep_segment a seg hseg, h1, h2]
  obtain ⟨hd1, hd2⟩ := dotsAfter_properName seg hp
  have hne : seg ≠ [] := by
    simp only [properName, decide_eq_true_eq] at hp
    exact hp.1
  simp [onSeparator, hd1, hd2, hne]

theorem foldl_normStep_segments (a : Bool) (segs : List (List Char))
    (hsegs : ∀ seg ∈ segs, properName seg = true ∧ '/' ∉ seg)
    (st : NormState) (h1 : st.seg = []) (h2 : st.dots = 0) :
    ∃ n, (segs.flatMap (fun seg => seg ++ ['/'])).foldl (normStep a) st =
      { res := glueAll st.res segs, lastSegmentLength := n, seg := [], dots := 0 } := by
  induction segs generalizing st with
  | nil =>
    refine ⟨st.lastSegmentLength, ?_⟩
    obtain ⟨r, n, sg, d⟩ := st
    simp only at h1 h2
    subst h1 h2
    simp [glueAll]
  | cons s ss ih =>
    obtain ⟨hp, hs⟩ := hsegs s (List.mem_cons_self _ _)
    have hstep : (s ++ ['/']).foldl (normStep a) st =
        { res := if st.res.length > 0 then st.res ++ '/' :: s else s
          lastSegmentLength := s.length, seg := [], dots := 0 } := by
      rw [List.foldl_append]
      simp only [List.foldl_cons, List.foldl_nil]
      rw [← onSeparator_segment a s hs hp st h1 h2]
      simp [normStep]
    rw [List.flatMap_cons, List.foldl_append, hstep]
    obtain ⟨n, hn⟩ := ih (fun seg h => hsegs seg (List.mem_cons_of_mem _ h))
      { res := if st.res.length > 0 then st.res ++ '/' :: s else s
        lastSegmentLength := s.length, seg := [], dots := 0 } rfl rfl
    exact ⟨n, by rw [hn]; simp [glueAll]⟩

theorem getLast?_of_properName (l : List Char) (h : (splitSlash l).all properName = true) :
    l ≠ [] ∧ l.getLast? ≠ some '/' := by
  constructor
  · rintro rfl
    simp [splitSlash, properName] at h
  · intro hl
    obtain ⟨l', rfl⟩ : ∃ l', l = l' ++ ['/'] := by
      rcases List.eq_nil_or_concat l with h0 | ⟨l', c, h0⟩
      · subst h0; simp at hl
      · rw [List.concat_eq_append] at h0
        subst h0
        rw [List.getLast?_concat] at hl
        injection hl with hl
        subst hl
        exact ⟨l', rfl⟩
    rw [splitSlash_append_slash] at h
    simp [splitSlash, properName] at h

theorem normalizeString_normal (a : Bool) (l : List Char)
    (h : (splitSlash l).all properName = true) :
    normalizeString ('/' :: l) a = l := by
  obtain ⟨hne, hlast⟩ := getLast?_of_properName l h
  have hl : ('/' :: l).getLast? ≠ some '/' := by
    cases l with
    | nil => exact absurd rfl hne
    | cons c cs => rwa [List.getLast?_cons_cons]
  have hinit : normStep a NormState.init '/' = NormState.init := by
    simp [normStep, onSeparator, NormState.init]
  have hsegs : ∀ seg ∈ splitSlash l, properName seg = true ∧ '/' ∉ seg := fun seg hs =>
    ⟨List.all_eq_true.1 h seg hs, splitSlash_no_slash l seg hs⟩
  obtain ⟨n, hn⟩ := foldl_normStep_segments a (splitSlash l) hsegs NormState.init rfl rfl
  rw [flatMap_splitSlash, List.foldl_append] at hn
  simp only [List.foldl_cons, List.foldl_nil] at hn
  have hsep : onSeparator a (l.foldl (normStep a) NormState.init) =
      normStep a (l.foldl (normStep a) NormState.init) '/' := by
    simp [normStep]
  simp only [normalizeString, hl, if_false, List.foldl_cons, hinit]
  rw [hsep, hn]
  exact glueAll_splitSlash l h

theorem normalize_normal (l : List Char) (h : (splitSlash l).all properName = true) :
    normalize (String.mk ('/' :: l)) = String.mk ('/' :: l) := by
  obtain ⟨hne, hlast⟩ := getLast?_of_properName l h
  have hl : ('/' :: l).getLast? ≠ some '/' := by
    cases l with
    | nil => exact absurd rfl hne
    | cons c cs => rwa [List.getLast?_cons_cons]
  have hlen : l.length ≠ 0 := fun h0 => hne (List.length_eq_zero.1 h0)
  simp only [normalize, String.length_mk, List.length_cons, Nat.succ_ne_zero, if_false,
    List.head?_cons, normalizeString_normal _ l h, hlen, hl, if_true]

theorem join_dirname (D : String) :
    join [D, "scripts", "base-install.sh"] =
      normalize (if D.length > 0 then D ++ "/scripts/base-install.sh"
        else "scripts/base-install.sh") := by
  have h1 : "scripts".length > 0 := by decide
  have h2 : "base-install.sh".length > 0 := by decide
  by_cases hD : D.length > 0
  · simp only [join, List.foldl, hD, h1, h2, if_true]
    congr 1
    apply String.ext
    simp [String.data_append]
  · simp only [join, List.foldl, hD, h1, h2, if_true, if_false]
    congr 1

theorem isAbsolute_normalize (p : String) (h : isAbsolute p = true) :
    isAbsolute (normalize p) = true := by
  obtain ⟨l⟩ := p
  cases l with
  | nil => simp [isAbsolute] at h
  | cons c cs =>
    simp only [isAbsolute, List.head?_cons, decide_eq_true_eq, Option.some.injEq] at h
    subst h
    simp only [normalize, String.length_mk, List.length_cons, Nat.succ_ne_zero, if_false,
      List.head?_cons, if_true]
    split
    · decide
    · simp [isAbsolute]

theorem isAbsolute_join_dirname (D : String) (h : isAbsolute D = true) :
    isAbsolute (join [D, "scripts", "base-install.sh"]) = true := by
  obtain ⟨l⟩ := D
  cases l with
  | nil => simp [isAbsolute] at h
  | cons c cs =>
    rw [join_dirname]
    apply isAbsolute_normalize
    simp only [isAbsolute, List.head?_cons, decide_eq_true_eq, Option.some.injEq] at h
    subst h
    simp [isAbsolute, String.data_append]

theorem normalize_data_ne_nil (p : String) : (normalize p).data ≠ [] := by
  unfold normalize
  split
  · decide
  · simp only
    split
    · split
      · decide
      · split <;> decide
    · rename_i hp
      split <;> split <;> simp_all

theorem join_dirname_of_normalDir (D : String) (h : isNormalDir D = true) :
    join [D, "scripts", "base-install.sh"] = D ++ "/scripts/base-install.sh" := by
  obtain ⟨l⟩ := D
  cases l with
  | nil => simp [isNormalDir] at h
  | cons c d =>
    simp only [isNormalDir, List.head?_cons, Bool.and_eq_true, decide_eq_true_eq,
      Option.some.injEq, List.tail_cons] at h
    obtain ⟨hc, hd⟩ := h
    subst hc
    have hlen : (String.mk ('/' :: d)).length > 0 := by simp
    rw [join_dirname, if_pos hlen]
    have hdata : String.mk ('/' :: d) ++ "/scripts/base-install.sh" =
        String.mk ('/' :: (d ++ '/' :: "scripts/base-install.sh".data)) := by
      apply String.ext
      simp [String.data_append]
    rw [hdata]
    apply normalize_normal
    rw [splitSlash_append_slash, List.all_append, hd]
    decide

/-! ## The run of `install.js`, unfolded -/

theorem execSync_install {σ : Type} (host : Host σ) (env : Env) (s : σ) :
    execSync host env.cwd (command env) (options env) s =
      ([Event.spawn (spawnRequest env),
        Event.returned { (host (spawnRequest env) s).1 with stderr := none }],
       (match checkExecSyncError { (host (spawnRequest env) s).1 with stderr := none }
            (command env) with
        | some err => Except.error err
        | none => Except.ok ()),
       (host (spawnRequest env) s).2) := by
  have h1 : stdioStringToArray "inherit" = some [.fd 0, .fd 1, .fd 2] := by decide
  simp only [execSync, options, Option.getD_some, h1, spawnSync, spawnRequest]
  have h2 : ([StdioSlot.fd 0, .fd 1, .fd 2].get? 2 = some StdioSlot.pipe) = False := by
    simp
  simp only [h2, if_false]
  split <;> simp_all

theorem install_events {σ : Type} (host : Host σ) (env : Env) (s : σ) :
    install host env s =
      (Event.write 1 "Running Agent OS installation...\n\n" ::
        Event.spawn (spawnRequest env) ::
        Event.returned (outcome host env s) ::
        (match checkExecSyncError (outcome host env s) (command env) with
         | some error =>
           [Event.write 2 ("Installation failed: " ++ error.message ++ "\n"), Event.exit 1]
         | none => [Event.exit 0]),
       (host (spawnRequest env) s).2) := by
  have hlog : consoleLine ["Running Agent OS installation...\n"] =
      "Running Agent OS installation...\n\n" := by decide
  have herr : ∀ m : String, consoleLine ["Installation failed:", m] =
      "Installation failed: " ++ m ++ "\n" := by
    intro m
    apply String.ext
    simp [consoleLine, String.intercalate, String.intercalate.go]
  simp only [install, execSync_install, outcome, hlog]
  generalize checkExecSyncError _ _ = c
  cases c <;> simp [herr]

theorem checkExecSyncError_outcome {σ : Type} (host : Host σ) (env : Env) (s : σ)
    (cmd : String) :
    checkExecSyncError (outcome host env s) cmd =
      match (outcome host env s).error with
      | some m => some ⟨m⟩
      | none =>
        if (outcome host env s).status = some 0 then none
        else some ⟨"Command failed: " ++ cmd⟩ := by
  simp only [checkExecSyncError, outcome]
  split <;> simp_all

theorem checkExecSyncError_eq_none {σ : Type} (host : Host σ) (env : Env) (s : σ)
    (cmd : String) :
    checkExecSyncError (outcome host env s) cmd = none ↔ succeeded (outcome host env s) := by
  rw [checkExecSyncError_outcome]
  unfold succeeded
  split <;> simp_all

theorem install_of_succeeded {σ : Type} (host : Host σ) (env : Env) (s : σ)
    (h : succeeded (outcome host env s)) :
    (install host env s).1 =
      [Event.write 1 "Running Agent OS installation...\n\n",
       Event.spawn (spawnRequest env), Event.returned (outcome host env s), Event.exit 0] := by
  rw [install_events, (checkExecSyncError_eq_none host env s (command env)).2 h]

theorem install_of_failed {σ : Type} (host : Host σ) (env : Env) (s : σ)
    (h : ¬ succeeded (outcome host env s)) :
    ∃ error, checkExecSyncError (outcome host env s) (command env) = some error ∧
      (install host env s).1 =
        [Event.write 1 "Running Agent OS installation...\n\n",
         Event.spawn (spawnRequest env), Event.returned (outcome host env s),
         Event.write 2 ("Installation failed: " ++ error.message ++ "\n"), Event.exit 1] := by
  cases hc : checkExecSyncError (outcome host env s) (command env) with
  | none => exact absurd ((checkExecSyncError_eq_none host env s (command env)).1 hc) h
  | some e => exact ⟨e, rfl, by rw [install_events, hc]⟩

theorem exitCode_install {σ : Type} (host : Host σ) (env : Env) (s : σ) :
    exitCode (install host env s).1 =
      some (if succeeded (outcome host env s) then 0 else 1) := by
  by_cases h : succeeded (outcome host env s)
  · rw [install_of_succeeded host env s h]
    simp [h, exitCode]
  · obtain ⟨e, -, he⟩ := install_of_failed host env s h
    rw [he]
    simp [h, exitCode]

/-- A child that was launched and left with a status other than zero: the
error `checkExecSyncError` builds. -/
theorem checkExecSyncError_of_status {σ : Type} (host : Host σ) (env : Env) (s : σ)
    (n : Nat) (hn : n ≠ 0) (herr : (outcome host env s).error = none)
    (hst : (outcome host env s).status = some n) :
    checkExecSyncError (outcome host env s) (command env) =
      some ⟨"Command failed: " ++ command env⟩ := by
  have hne : (outcome host env s).status ≠ some 0 := by
    rw [hst]; intro h0; injection h0 with h0; exact hn h0
  rw [checkExecSyncError_outcome, herr]
  simp [hne]

theorem execSync_of_thrown {σ : Type} (host : Host σ) (env : Env) (s : σ) (error : ExecError)
    (hc : checkExecSyncError (outcome host env s) (command env) = some error) :
    (execSync host env.cwd (command env) (options env) s).2.1 = Except.error error := by
  rw [execSync_install]
  change (match checkExecSyncError (outcome host env s) (command env) with
    | some err => Except.error err
    | none => Except.ok ()) = _
  rw [hc]

theorem written_of_thrown {σ : Type} (host : Host σ) (env : Env) (s : σ) (error : ExecError)
    (hc : checkExecSyncError (outcome host env s) (command env) = some error) :
    written 2 (install host env s).1 = "Installation failed: " ++ error.message ++ "\n" := by
  rw [install_events, hc]
  apply String.ext
  simp [written, String.join]

theorem exitCode_of_thrown {σ : Type} (host : Host σ) (env : Env) (s : σ) (error : ExecError)
    (hc : checkExecSyncError (outcome host env s) (command env) = some error) :
    exitCode (install host env s).1 = some 1 := by
  rw [install_events, hc]
  simp [exitCode]

/-! ## Launches whose script path has no blank -/

theorem shWordsGo_no_blank (l cur : List Char) (h : ∀ c ∈ l, c ≠ ' ' ∧ c ≠ '\t') :
    shWordsGo l cur = if cur ++ l = [] then [] else [String.mk (cur ++ l)] := by
  induction l generalizing cur with
  | nil => simp [shWordsGo]
  | cons c cs ih =>
    obtain ⟨h1, h2⟩ := h c (List.mem_cons_self _ _)
    simp only [shWordsGo, h1, h2, or_self, if_false]
    rw [ih _ (fun x hx => h x (List.mem_cons_of_mem _ hx))]
    simp

theorem shWordsGo_bash (p : List Char) (hb : ∀ c ∈ p, c ≠ ' ' ∧ c ≠ '\t') (hne : p ≠ []) :
    shWordsGo ('b' :: 'a' :: 's' :: 'h' :: ' ' :: p) [] = ["bash", String.mk p] := by
  have h4 : shWordsGo ('b' :: 'a' :: 's' :: 'h' :: ' ' :: p) [] =
      String.mk ['b', 'a', 's', 'h'] :: shWordsGo p [] := by
    simp [shWordsGo]
  rw [h4, shWordsGo_no_blank p [] hb]
  simp only [List.nil_append, hne, if_false]

theorem shWords_command (env : Env)
    (hb : ∀ c ∈ (scriptPath env).data, c ≠ ' ' ∧ c ≠ '\t') :
    shWords (command env) = ["bash", scriptPath env] := by
  have hne : (scriptPath env).data ≠ [] := by
    unfold scriptPath
    rw [join_dirname]
    exact normalize_data_ne_nil _
  have hdata : (command env).data = 'b' :: 'a' :: 's' :: 'h' :: ' ' :: (scriptPath env).data := by
    simp [command, String.data_append]
  unfold shWords
  rw [hdata, shWordsGo_bash _ hb hne]

/-- Where the script path has no blank in it, the host runs `bash` on that very
file, and a missing file ends the run with code 1 and a message on standard
error. -/
theorem missing_script_reported_without_blank (fs : Files) (env : Env)
    (habs : isAbsolute env.dirname = true)
    (hb : ∀ c ∈ (scriptPath env).data, c ≠ ' ' ∧ c ≠ '\t')
    (hmiss : fs.isFile (scriptPath env) = false) :
    exitCode (install (bashHost fs) env ()).1 = some 1 ∧
    written 2 (install (bashHost fs) env ()).1 =
      "Installation failed: " ++ ("Command failed: " ++ command env) ++ "\n" := by
  have hsp : isAbsolute (scriptPath env) = true := isAbsolute_join_dirname _ habs
  have hout : outcome (bashHost fs) env () =
      { error := none, status := some 127, signal := none, stderr := none } := by
    simp [outcome, bashHost, spawnRequest, shWords_command env hb, hsp, hmiss]
  have hc := checkExecSyncError_of_status (bashHost fs) env () 127 (by decide)
    (by rw [hout]) (by rw [hout])
  exact ⟨exitCode_of_thrown _ env () _ hc, written_of_thrown _ env () _ hc⟩

/-! ## Path of the script -/

/-- C1.  Path resolution: the script path is `path.join` of the directory `D`
of `install.js`, `scripts` and `base-install.sh`; it is absolute whenever `D`
is, it is the same for any two working directories `W` and `W'` of the caller,
and for a `D` in the normal form Node gives `__dirname` it is the text
`<D>/scripts/base-install.sh` (`/scripts/base-install.sh` for the root). -/
theorem script_path_resolution (D W W' : String) :
    scriptPath ⟨D, W⟩ = join [D, "scripts", "base-install.sh"] ∧
    (isAbsolute D = true → isAbsolute (scriptPath ⟨D, W⟩) = true) ∧
    scriptPath ⟨D, W⟩ = scriptPath ⟨D, W'⟩ ∧
    (isNormalDir D = true → scriptPath ⟨D, W⟩ = D ++ "/scripts/base-install.sh") ∧
    (D = "/" → scriptPath ⟨D, W⟩ = "/scripts/base-install.sh") := by
  refine ⟨rfl, isAbsolute_join_dirname D, rfl, join_dirname_of_normalDir D, ?_⟩
  rintro rfl
  show join ["/", "scripts", "base-install.sh"] = "/scripts/base-install.sh"
  decide

/-- Witness of C1: the checkout in `/opt/agent-os`. -/
theorem script_path_resolution_witness :
    isAbsolute (scriptPath ⟨"/opt/agent-os", "/home/dev"⟩) = true ∧
    scriptPath ⟨"/opt/agent-os", "/home/dev"⟩ = "/opt/agent-os/scripts/base-install.sh" ∧
    scriptPath ⟨"/", "/home/dev"⟩ = "/scripts/base-install.sh" :=
  have h := script_path_resolution "/opt/agent-os" "/home/dev" "/tmp"
  ⟨h.2.1 (by decide), (h.2.2.2.1 (by decide)).trans (by decide),
    (script_path_resolution "/" "/home/dev" "/tmp").2.2.2.2 rfl⟩

/-! ## Exit codes -/

/-- C2.  Exit-code mapping: whatever the host answers, the run ends with code 0
exactly when the child was launched and left with status zero, and with code 1
otherwise; no other code is produced, and a status of the child other than 0
and 1 is never the code of the run. -/
theorem exit_code_mapping {σ : Type} (host : Host σ) (env : Env) (s : σ) :
    exitCode (install host env s).1 =
        some (if succeeded (outcome host env s) then 0 else 1) ∧
    (exitCode (install host env s).1 = some 0 ↔ succeeded (outcome host env s)) ∧
    (exitCode (install host env s).1 = some 0 ∨ exitCode (install host env s).1 = some 1) ∧
    (∀ n, 2 ≤ n → (outcome host env s).status = some n →
      exitCode (install host env s).1 = some 1 ∧ exitCode (install host env s).1 ≠ some n) := by
  have hx := exitCode_install host env s
  refine ⟨hx, ?_, ?_, ?_⟩
  · rw [hx]; by_cases h : succeeded (outcome host env s) <;> simp [h]
  · rw [hx]; by_cases h : succeeded (outcome host env s) <;> simp [h]
  · intro n hn hst
    have h : ¬ succeeded (outcome host env s) := by
      rintro ⟨-, h0⟩
      rw [hst] at h0
      injection h0 with h0
      omega
    rw [hx, if_neg h]
    refine ⟨rfl, fun h1 => ?_⟩
    injection h1 with h1
    omega

/-- Witness of C2: a child leaving with status 7 ends the run with code 1, not
with code 7. -/
theorem exit_code_mapping_witness :
    exitCode (install (stubHost 7) plainEnv ()).1 = some 1 ∧
    exitCode (install (stubHost 7) plainEnv ()).1 ≠ some 7 :=
  (exit_code_mapping (stubHost 7) plainEnv ()).2.2.2 7 (by decide) rfl

/-- C3.  Failure propagation: when the child was launched and left with a
status `n` other than zero, `execSync` throws an error whose message is
`Command failed: ` followed by the command line, the run ends with code 1, and
standard error receives the label `Installation failed:`, a blank, that message
and a newline. -/
theorem nonzero_exit_reports_failure {σ : Type} (host : Host σ) (env : Env) (s : σ)
    (n : Nat) (hn : n ≠ 0) (herr : (outcome host env s).error = none)
    (hst : (outcome host env s).status = some n) :
    (execSync host env.cwd (command env) (options env) s).2.1 =
        Except.error ⟨"Command failed: " ++ command env⟩ ∧
    exitCode (install host env s).1 = some 1 ∧
    written 2 (install host env s).1 =
        "Installation failed:" ++ " " ++ ("Command failed: " ++ command env) ++ "\n" := by
  have hc := checkExecSyncError_of_status host env s n hn herr hst
  refine ⟨execSync_of_thrown host env s _ hc, exitCode_of_thrown host env s _ hc, ?_⟩
  rw [written_of_thrown host env s _ hc]
  apply String.ext
  simp [String.data_append]

/-- Witness of C3: the stub child leaving with status 7. -/
theorem nonzero_exit_reports_failure_witness :
    exitCode (install (stubHost 7) plainEnv ()).1 = some 1 ∧
    written 2 (install (stubHost 7) plainEnv ()).1 =
      "Installation failed: Command failed: bash /opt/agent-os/scripts/base-install.sh\n" :=
  have h := nonzero_exit_reports_failure (stubHost 7) plainEnv () 7 (by decide) rfl rfl
  ⟨h.2.1, h.2.2.trans (by decide)⟩

/-! ## A missing script -/

/-- C4 on the code, at a checkout in `/opt/agent os` whose
`scripts/base-install.sh` is missing while a file `/opt/agent` exists: the
script path is not a file, yet `bash` is run on `/opt/agent`, leaves with
status 0, and the run ends with code 0 and nothing on standard error. -/
theorem missing_script_runs_stray_file :
    strayFiles.isFile (scriptPath spacedEnv) = false ∧
    outcome (bashHost strayFiles) spacedEnv () =
      { error := none, status := some 0, signal := none, stderr := none } ∧
    exitCode (install (bashHost strayFiles) spacedEnv ()).1 = some 0 ∧
    written 2 (install (bashHost strayFiles) spacedEnv ()).1 = "" := by
  decide

/-! ## Output of a successful run -/

/-- C5, as stated, fails: after a child that leaves with status 0 the text on
standard output holds two lines, the progress line and an empty one, not one. -/
theorem success_output_two_lines :
    succeeded (outcome (stubHost 0) plainEnv ()) ∧
    ¬ (exitCode (install (stubHost 0) plainEnv ()).1 = some 0 ∧
       (linesOf (written 1 (install (stubHost 0) plainEnv ()).1)).length = 1 ∧
       written 2 (install (stubHost 0) plainEnv ()).1 = "") := by
  decide

/-- C5, amended.  Success propagation: when the child was launched and left
with status 0, the run ends with code 0 and consists of one write to standard
output, the launch, its return and the exit; the text on standard output is the
progress line followed by one empty line, and nothing goes to standard error. -/
theorem success_output {σ : Type} (host : Host σ) (env : Env) (s : σ)
    (h : succeeded (outcome host env s)) :
    exitCode (install host env s).1 = some 0 ∧
    (install host env s).1 =
      [Event.write 1 "Running Agent OS installation...\n\n",
       Event.spawn (spawnRequest env), Event.returned (outcome host env s), Event.exit 0] ∧
    linesOf (written 1 (install host env s).1) = ["Running Agent OS installation...", ""] ∧
    written 2 (install host env s).1 = "" := by
  have hev := install_of_succeeded host env s h
  refine ⟨?_, hev, ?_, ?_⟩
  · rw [exitCode_install, if_pos h]
  · rw [hev]
    have hw : written 1 [Event.write 1 "Running Agent OS installation...\n\n",
        Event.spawn (spawnRequest env), Event.returned (outcome host env s), Event.exit 0] =
        "Running Agent OS installation...\n\n" := by
      apply String.ext
      simp [written, String.join]
    rw [hw]
    decide
  · rw [hev]
    apply String.ext
    simp [written, String.join]

/-- Witness of C5 amended: the stub child leaving with status 0. -/
theorem success_output_witness :
    exitCode (install (stubHost 0) plainEnv ()).1 = some 0 ∧
    linesOf (written 1 (install (stubHost 0) plainEnv ()).1) =
      ["Running Agent OS installation...", ""] ∧
    written 2 (install (stubHost 0) plainEnv ()).1 = "" :=
  have h := success_output (stubHost 0) plainEnv () (by decide)
  ⟨h.1, h.2.2.1, h.2.2.2⟩

/-! ## The command line -/

/-- C6 on the code, at a checkout in `/opt/agent os`: the script path is put
into the command line as it is, so `sh` cuts the command into three words;
`bash` gets `/opt/agent` as its script and the rest of the path as an argument
of that script. -/
theorem unquoted_script_path_is_split :
    scriptPath spacedEnv = "/opt/agent os/scripts/base-install.sh" ∧
    launches (install (bashHost strayFiles) spacedEnv ()).1 =
      [{ file := "/bin/sh"
         args := ["/bin/sh", "-c", "bash /opt/agent os/scripts/base-install.sh"]
         cwd := "/opt/agent os", stdio := [.fd 0, .fd 1, .fd 2] }] ∧
    shWords (command spacedEnv) = ["bash", "/opt/agent", "os/scripts/base-install.sh"] ∧
    shWords (command spacedEnv) ≠ ["bash", scriptPath spacedEnv] := by
  decide

/-! ## The launch -/

/-- C7.  Launch configuration: whatever the directory `W` the caller started
the process in, a run launches exactly one child, in the directory `D` of
`install.js`, with the three descriptors 0, 1 and 2 of the bootstrapper as its
standard streams; nothing the child writes is captured. -/
theorem launch_configuration {σ : Type} (host : Host σ) (D W : String) (s : σ) :
    launches (install host ⟨D, W⟩ s).1 =
      [{ file := "/bin/sh"
         args := ["/bin/sh", "-c", "bash " ++ join [D, "scripts", "base-install.sh"]]
         cwd := D, stdio := [.fd 0, .fd 1, .fd 2] }] ∧
    (outcome host ⟨D, W⟩ s).stderr = none := by
  refine ⟨?_, rfl⟩
  show launches (install host ⟨D, W⟩ s).1 = [spawnRequest ⟨D, W⟩]
  rw [install_events]
  cases checkExecSyncError (outcome host ⟨D, W⟩ s) (command ⟨D, W⟩) <;>
    simp [launches, spawnRequest]

/-! ## Order of events -/

/-- C10.  Progress before launch: every run starts with the write of the
progress message to standard output, then launches the child, then sees
`spawnSync` return with the outcome of the child, and only then either exits
with code 0 or writes the `Installation failed:` message to standard error and
exits with code 1. -/
theorem progress_before_launch {σ : Type} (host : Host σ) (env : Env) (s : σ) :
    ∃ rest, (install host env s).1 =
        Event.write 1 ("Running Agent OS installation..." ++ "\n\n") ::
        Event.spawn (spawnRequest env) ::
        Event.returned (outcome host env s) :: rest ∧
      (rest = [Event.exit 0] ∨
       ∃ detail, rest =
        [Event.write 2 ("Installation failed: " ++ detail ++ "\n"), Event.exit 1]) := by
  have h0 : "Running Agent OS installation..." ++ "\n\n" =
      "Running Agent OS installation...\n\n" := by decide
  rw [h0]
  by_cases h : succeeded (outcome host env s)
  · exact ⟨_, install_of_succeeded host env s h, Or.inl rfl⟩
  · obtain ⟨e, -, he⟩ := install_of_failed host env s h
    exact ⟨_, he, Or.inr ⟨e.message, rfl⟩⟩

/-! ## Repeated runs -/

/-- C8.  Idempotence of invocation: on a host whose answer to a request does
not depend on the state it is in, two runs in sequence from the same directory
`D`, the second one in the state the first one left, end with the same exit
code, whatever the working directories of the callers; and the exit code of any
run is one fixed function of the outcome of its child. -/
theorem repeated_runs_same_exit_code {σ : Type} (host : Host σ) (D W₁ W₂ : String) (s : σ)
    (hdet : ∀ req s₁ s₂, (host req s₁).1 = (host req s₂).1) :
    exitCode (install host ⟨D, W₁⟩ s).1 =
        exitCode (install host ⟨D, W₂⟩ (install host ⟨D, W₁⟩ s).2).1 ∧
    ∃ f : SpawnResult → Nat, ∀ (τ : Type) (h : Host τ) (env : Env) (t : τ),
      exitCode (install h env t).1 = some (f (outcome h env t)) := by
  refine ⟨?_, fun r => if succeeded r then 0 else 1, fun τ h env t => exitCode_install h env t⟩
  rw [exitCode_install, exitCode_install]
  have ho : outcome host ⟨D, W₂⟩ (install host ⟨D, W₁⟩ s).2 = outcome host ⟨D, W₁⟩ s := by
    simp only [outcome]
    have hr : spawnRequest ⟨D, W₂⟩ = spawnRequest ⟨D, W₁⟩ := rfl
    rw [hr, hdet (spawnRequest ⟨D, W₁⟩) (install host ⟨D, W₁⟩ s).2 s]
  rw [ho]

/-- Witness of C8: two runs in a row on a host that counts its launches and
whose stub child always leaves with status 7. -/
theorem repeated_runs_same_exit_code_witness :
    exitCode (install (countingHost 7) ⟨"/opt/agent-os", "/home/dev"⟩ 0).1 =
      exitCode (install (countingHost 7) ⟨"/opt/agent-os", "/tmp"⟩
        (install (countingHost 7) ⟨"/opt/agent-os", "/home/dev"⟩ 0).2).1 :=
  (repeated_runs_same_exit_code (countingHost 7) "/opt/agent-os" "/home/dev" "/tmp" 0
    (fun _ _ _ => rfl)).1

end AgentOS
